/-
Verification of the interactive biography RAG application (src/app.py).

The application is a thin orchestration layer over library calls; the
behaviour claimed by the specification is decided by the code of main,
get_text_content, build_vector_store and get_rag_chain in app.py together
with the exact semantics of the library functions they invoke:

- RecursiveCharacterTextSplitter(chunk_size=1000, chunk_overlap=200) from
  langchain_text_splitters, with the default separators and
  keep_separator=True, strip_whitespace=True: embedded below on
  Str := List Char, following the library implementation
  (_split_text, _split_text_with_regex, _merge_splits, _join_docs).
- st.cache_resource on build_vector_store: memoizes on the hash of the
  arguments whose names do not start with an underscore; in app.py the key
  is therefore derived from text_content only, since the second parameter
  is named with a leading underscore.
- create_stuff_documents_chain / create_retrieval_chain: the generator
  receives a system message obtained from the literal system prompt with
  the retrieved chunk texts joined by a blank line substituted for the
  context placeholder, and a human message equal to the query; the chain
  is invoked with the query only (line 153), never with the chat history.

External effects (file reads, UTF-8 decoding, embedding and generation
calls) are passed in as explicit values or functions.
-/
import Mathlib

set_option maxRecDepth 20000

namespace RagApp

/-- Characters of a Python string. -/
abbrev Str := List Char

/-! ## Chunker: RecursiveCharacterTextSplitter(chunk_size=1000, chunk_overlap=200) -/

/-- Configured chunk size (app.py line 66). -/
def chunk_size : Nat := 1000

/-- Configured chunk overlap (app.py line 66). -/
def chunk_overlap : Nat := 200

/-- The 29 characters Python str.isspace accepts and str.strip removes:
the code points whose bidirectional class is WS, B or S or whose general
category is Zs — tab, line feed, vertical tab, form feed, carriage
return, the information separators U+001C to U+001F, space, next line
U+0085, no-break space U+00A0, ogham space mark U+1680, the fixed-width
spaces U+2000 to U+200A, line separator U+2028, paragraph separator
U+2029, narrow no-break space U+202F, medium mathematical space U+205F
and ideographic space U+3000. -/
def pyWhitespace : List Char :=
  [Char.ofNat 0x09, Char.ofNat 0x0A, Char.ofNat 0x0B, Char.ofNat 0x0C, Char.ofNat 0x0D,
   Char.ofNat 0x1C, Char.ofNat 0x1D, Char.ofNat 0x1E, Char.ofNat 0x1F, Char.ofNat 0x20,
   Char.ofNat 0x85, Char.ofNat 0xA0, Char.ofNat 0x1680,
   Char.ofNat 0x2000, Char.ofNat 0x2001, Char.ofNat 0x2002, Char.ofNat 0x2003,
   Char.ofNat 0x2004, Char.ofNat 0x2005, Char.ofNat 0x2006, Char.ofNat 0x2007,
   Char.ofNat 0x2008, Char.ofNat 0x2009, Char.ofNat 0x200A, Char.ofNat 0x2028,
   Char.ofNat 0x2029, Char.ofNat 0x202F, Char.ofNat 0x205F, Char.ofNat 0x3000]

/-- Whether Python str.strip removes the character. -/
def pyIsSpace (c : Char) : Bool := pyWhitespace.contains c

/-- Python str.strip: drop leading and trailing whitespace. -/
def strip (s : Str) : Str :=
  ((s.dropWhile pyIsSpace).reverse.dropWhile pyIsSpace).reverse

/-- Leftmost occurrence of a nonempty separator: returns the text before the
occurrence and the text after it, as re.search and re.split locate it. -/
def splitFirst (sep : Str) : Str → Option (Str × Str)
  | [] => none
  | c :: rest =>
    if List.isPrefixOf sep (c :: rest) then some ([], (c :: rest).drop sep.length)
    else
      match splitFirst sep rest with
      | some (pre, post) => some (c :: pre, post)
      | none => none

/-- Whether a nonempty separator occurs in the text (re.search on the escaped
separator). -/
def containsSub (sep t : Str) : Bool := (splitFirst sep t).isSome

/-- Split into the pieces between occurrences of the separator, consuming
fuel once per occurrence.  One character is consumed per occurrence, so
fuel equal to the length of the text always suffices, and when the fuel
runs out the text is empty and the result agrees with the unfueled split. -/
def splitPiecesFuel (sep : Str) : Nat → Str → List Str
  | 0, t => [t]
  | fuel + 1, t =>
    match splitFirst sep t with
    | none => [t]
    | some (pre, post) => pre :: splitPiecesFuel sep fuel post

/-- re.split on a nonempty literal separator: the pieces between occurrences. -/
def splitPieces (sep : Str) (t : Str) : List Str :=
  if sep = [] then [t] else splitPiecesFuel sep t.length t

/-- _split_text_with_regex with keep_separator=True: split, attach each
separator occurrence to the front of the following piece, and drop empty
pieces.  With the empty separator this is list(text). -/
def splitKeep (sep : Str) (t : Str) : List Str :=
  (if sep = [] then t.map (fun c => [c])
   else
     match splitPieces sep t with
     | [] => []
     | p :: ps => p :: ps.map (fun q => sep ++ q)).filter (fun s => !s.isEmpty)

/-- _join_docs: join with the separator, strip whitespace, drop empty
results. -/
def joinDocs (sep : Str) (docs : List Str) : Option Str :=
  let text := strip (List.intercalate sep docs)
  if text = [] then none else some text

/-- The while loop in _merge_splits that pops leading splits until the
retained total is within the overlap budget and the next split fits. -/
def popWhile (cs ov sepLen : Nat) (lenNext : Int) : List Str → Int → List Str × Int
  | [], total => ([], total)
  | d :: rest, total =>
    if total > (ov : Int) ∨
        (total + lenNext + (if 0 < (d :: rest).length then (sepLen : Int) else 0) > (cs : Int)
          ∧ total > 0) then
      popWhile cs ov sepLen lenNext rest
        (total - ((d.length : Int) + if 0 < rest.length then (sepLen : Int) else 0))
    else (d :: rest, total)

/-- The body of the overflow check in _merge_splits: when the next split
would overflow the chunk size and the window is nonempty, the joined
window is emitted and the window is popped down to the overlap budget;
otherwise nothing changes. -/
def mergeFlush (cs ov : Nat) (sep : Str) (d : Str) (cur : List Str) (total : Int)
    (docs : List Str) : List Str × List Str × Int :=
  if total + (d.length : Int) + (if 0 < cur.length then (sep.length : Int) else 0) >
      (cs : Int) then
    if 0 < cur.length then
      (docs ++ (joinDocs sep cur).toList,
        (popWhile cs ov sep.length d.length cur total).1,
        (popWhile cs ov sep.length d.length cur total).2)
    else (docs, cur, total)
  else (docs, cur, total)

/-- The main loop of _merge_splits: accumulate splits into the current
window, flushing a joined chunk and retaining an overlap-sized suffix of
the window whenever the next split would overflow the chunk size. -/
def mergeLoop (cs ov : Nat) (sep : Str) : List Str → List Str → Int → List Str → List Str
  | [], cur, _total, docs => docs ++ (joinDocs sep cur).toList
  | d :: ds, cur, total, docs =>
    let st := mergeFlush cs ov sep d cur total docs
    mergeLoop cs ov sep ds (st.2.1 ++ [d])
      (st.2.2 + (d.length : Int) + (if 0 < st.2.1.length then (sep.length : Int) else 0)) st.1

/-- _merge_splits on a list of small splits. -/
def mergeSplits (cs ov : Nat) (sep : Str) (splits : List Str) : List Str :=
  mergeLoop cs ov sep splits [] 0 []

/-- The loop of _split_text over the pieces produced for the chosen
separator: pieces shorter than the chunk size are merged; oversized pieces
flush the pending merge and are either recursively split with the
remaining separators or kept whole when no separators remain.  Merging
joins with the empty separator because keep_separator=True. -/
def processSplits (cs ov : Nat) (recurse : Str → List Str) (noRec : Bool) :
    List Str → List Str → List Str → List Str
  | [], good, final => final ++ (if 0 < good.length then mergeSplits cs ov [] good else [])
  | s :: ss, good, final =>
    if s.length < cs then processSplits cs ov recurse noRec ss (good ++ [s]) final
    else
      let final1 := final ++ (if 0 < good.length then mergeSplits cs ov [] good else [])
      let final2 := if noRec then final1 ++ [s] else final1 ++ recurse s
      processSplits cs ov recurse noRec ss [] final2

/-- Paragraph separator, the first default separator. -/
def sepParagraph : Str := "\n\n".data

/-- Newline separator, the second default separator. -/
def sepNewline : Str := "\n".data

/-- Space separator, the third default separator. -/
def sepSpace : Str := " ".data

/-- _split_text with separators equal to the final default level: the empty
separator splits into single characters and there is no further
recursion. -/
def splitChars (t : Str) : List Str :=
  processSplits chunk_size chunk_overlap (fun _ => []) true (splitKeep [] t) [] []

/-- _split_text with the remaining separators space and empty: the scan in
_split_text chooses the space separator when it occurs in the text and
otherwise falls through to the empty separator. -/
def splitBySpace (t : Str) : List Str :=
  if containsSub sepSpace t then
    processSplits chunk_size chunk_overlap splitChars false (splitKeep sepSpace t) [] []
  else splitChars t

/-- _split_text with the remaining separators newline, space and empty. -/
def splitByNewline (t : Str) : List Str :=
  if containsSub sepNewline t then
    processSplits chunk_size chunk_overlap splitBySpace false (splitKeep sepNewline t) [] []
  else splitBySpace t

/-- split_text with the default separator list: paragraph break, newline,
space, empty. -/
def splitText (t : Str) : List Str :=
  if containsSub sepParagraph t then
    processSplits chunk_size chunk_overlap splitByNewline false (splitKeep sepParagraph t) [] []
  else splitByNewline t

/-- Page contents of split_documents applied to the single Document built
from the raw text (app.py lines 63-67); metadata is the constant source
label and is omitted. -/
def chunkTexts (t : Str) : List Str := splitText t

/-! ## Vector store and the st.cache_resource memoization of build_vector_store -/

/-- The FAISS store built in build_vector_store: it owns the chunk texts and
was created with the embedder configured from the supplied API key. -/
structure VectorStore where
  chunks : List Str
  apiKey : Str
deriving DecidableEq

/-- Global state of the st.cache_resource cache for build_vector_store plus
the cumulative number of embedding calls made by the Embedder capability
(FAISS.from_documents embeds each chunk once). -/
structure CacheState where
  cache : List (Str × Option VectorStore)
  embedCalls : Nat
deriving DecidableEq

/-- Lookup in the memoization cache.  st.cache_resource hashes only the
parameters whose names do not start with an underscore, so the key for
build_vector_store(text_content, _api_key) is text_content alone. -/
def cacheLookup : List (Str × Option VectorStore) → Str → Option (Option VectorStore)
  | [], _ => none
  | (k, v) :: rest, key => if k = key then some v else cacheLookup rest key

/-- build_vector_store (app.py lines 53-81) under st.cache_resource: on a
cache hit the stored result is returned with no embedding calls; otherwise
the body runs: falsy text returns None, and FAISS.from_documents embeds
every chunk (raising, hence None, when there are no chunks) and the result
is cached under the text alone. -/
def build_vector_store (text_content : Str) (apiKey : Str) (st : CacheState) :
    Option VectorStore × CacheState :=
  match cacheLookup st.cache text_content with
  | some r => (r, st)
  | none =>
    let built : Option VectorStore × Nat :=
      if text_content = [] then (none, 0)
      else
        let splits := chunkTexts text_content
        if splits = [] then (none, 0)
        else (some ⟨splits, apiKey⟩, splits.length)
    (built.1, ⟨(text_content, built.1) :: st.cache, st.embedCalls + built.2⟩)

/-! ## Prompt composition: get_rag_chain and create_stuff_documents_chain -/

/-- The prompt handed to the Generator: the rendered system message and the
human message. -/
structure Prompt where
  system : Str
  human : Str
deriving DecidableEq

/-- The literal sentences of the system prompt preceding the grounding
rule (app.py lines 92-96). -/
def sysPersona : Str :=
  ("You are an AI assistant representing the person described in the context. Answer questions as if you are that person. Use the following pieces of retrieved context to answer the question. ").data

/-- The grounding rule sentence of the system prompt (app.py line 96). -/
def groundingRule : Str :=
  ("If the answer is not in the context, say you don't know based on the biography.").data

/-- The fixed system instruction: all sentences of the system prompt up to
and including the blank line before the context placeholder. -/
def systemInstruction : Str := sysPersona ++ groundingRule ++ (" \n\n").data

/-- create_stuff_documents_chain renders the context as the page contents
of the retrieved documents joined by a blank line (the default document
separator). -/
def contextOf (docs : List Str) : Str := List.intercalate ("\n\n".data) docs

/-- The prompt fed to the Generator for a query: the system template with
the context substituted, and the human message holding the query. -/
def composePrompt (docs : List Str) (query : Str) : Prompt :=
  ⟨systemInstruction ++ contextOf docs, query⟩

/-! ## Conversation store and the chat handler -/

/-- One entry of st.session_state.messages. -/
structure Turn where
  role : Str
  content : Str
deriving DecidableEq

/-- Role string of a user turn. -/
def userRole : Str := "user".data

/-- Role string of an assistant turn. -/
def assistantRole : Str := "assistant".data

/-- Message of the exception raised by the Generator call. -/
abbrev GenError := Str

/-- The chat handler (app.py lines 145-158): the user turn is appended as
soon as a query arrives; then the chain is invoked, and on success the
assistant turn is appended while on an exception an error is surfaced and
nothing further is appended. -/
def chatStep (messages : List Turn) (promptText : Str) (genResult : Except GenError Str) :
    List Turn × Option GenError :=
  let m1 := messages ++ [⟨userRole, promptText⟩]
  match genResult with
  | Except.ok answer => (m1 ++ [⟨assistantRole, answer⟩], none)
  | Except.error e => (m1, some e)

/-- Per-session state visible to one query: the built store and the chat
history. -/
structure Session where
  store : VectorStore
  messages : List Turn
deriving DecidableEq

/-- One query through rag_chain.invoke (app.py line 153): the retriever is
asked for the chunks matching the query, the prompt is composed from those
chunks and the query alone, the Generator is called on it, and the chat
handler updates the history.  Returns the prompt the Generator received,
the new history and the surfaced error, if any. -/
def queryStep (retr : VectorStore → Str → List Str) (gen : Prompt → Except GenError Str)
    (s : Session) (q : Str) : Prompt × List Turn × Option GenError :=
  let p := composePrompt (retr s.store q) q
  let r := chatStep s.messages q (gen p)
  (p, r.1, r.2)

/-! ## Document loading -/

/-- Message of an exception raised while reading or decoding a file. -/
abbrev PyErr := Str

/-- get_text_content (app.py lines 35-51).  The uploaded argument carries
the outcome of decoding the uploaded bytes as UTF-8 when a file was
uploaded; localExists and localRead describe biography.txt in the working
directory.  Returns the text, when any, and the surfaced error messages. -/
def get_text_content (uploaded : Option (Except PyErr Str)) (localExists : Bool)
    (localRead : Except PyErr Str) : Option Str × List PyErr :=
  match uploaded with
  | some decoded =>
    match decoded with
    | Except.ok s => (some s, [])
    | Except.error e => (none, [e])
  | none =>
    if localExists then
      match localRead with
      | Except.ok s => (some s, [])
      | Except.error e => (none, [e])
    else (none, [])

/-! ## The main flow -/

/-- Observable outcome of one run of main. -/
inductive MainOutcome
  | warnedNoApiKey
  | infoNoDocument
  | storeFailed
  | ready (vs : VectorStore) (genFailure : Option GenError)
deriving DecidableEq

/-- main (app.py lines 118-158) for one script run: missing API key warns
and stops; missing or empty text shows the info message and stops; the
store is built through the cache; when a store exists and a chat message
was submitted, the query runs through the chain and the history is
updated. -/
def main (apiKey : Str) (uploaded : Option (Except PyErr Str)) (localExists : Bool)
    (localRead : Except PyErr Str) (retr : VectorStore → Str → List Str)
    (gen : Prompt → Except GenError Str) (cache : CacheState) (messages : List Turn)
    (chatInput : Option Str) : CacheState × List Turn × MainOutcome :=
  if apiKey = [] then (cache, messages, MainOutcome.warnedNoApiKey)
  else
    match (get_text_content uploaded localExists localRead).1 with
    | none => (cache, messages, MainOutcome.infoNoDocument)
    | some t =>
      if t = [] then (cache, messages, MainOutcome.infoNoDocument)
      else
        let br := build_vector_store t apiKey cache
        match br.1 with
        | none => (br.2, messages, MainOutcome.storeFailed)
        | some vs =>
          match chatInput with
          | none => (br.2, messages, MainOutcome.ready vs none)
          | some q =>
            let r := queryStep retr gen ⟨vs, messages⟩ q
            (br.2, r.2.1, MainOutcome.ready vs r.2.2)

/-- The Clear Chat History button (app.py lines 29-31) empties the session
message list. -/
def clearHistory (_messages : List Turn) : List Turn := []

/-- Reading the history replays st.session_state.messages. -/
def getHistory (messages : List Turn) : List Turn := messages

/-! ## Predicates used to state the claims -/

/-- The text s contains each listed string, in order and without
overlapping occurrences. -/
def ContainsInOrder : Str → List Str → Prop
  | _, [] => True
  | s, d :: ds => ∃ pre post, s = pre ++ d ++ post ∧ ContainsInOrder post ds

/-- Chunk a is followed by chunk b with an overlap of exactly n
characters: the last n characters of a equal the first n characters
of b. -/
def overlapsBy (a b : Str) (n : Nat) : Prop :=
  n ≤ a.length ∧ n ≤ b.length ∧ a.drop (a.length - n) = b.take n

instance (a b : Str) (n : Nat) : Decidable (overlapsBy a b n) := by
  unfold overlapsBy; exact inferInstance

/-! ## Concrete fixtures for counterexamples and witnesses -/

/-- First paragraph of the two-paragraph fixture. -/
def paraA : Str := List.replicate 600 'A'

/-- Second paragraph of the two-paragraph fixture. -/
def paraB : Str := List.replicate 600 'B'

/-- A document of two 600-character paragraphs separated by a blank line:
each paragraph is shorter than the chunk size but the two together
overflow it, so the splitter cuts at the paragraph boundary. -/
def paraText : Str := paraA ++ "\n\n".data ++ paraB

/-- A tiny nonempty document. -/
def tinyDoc : Str := "hi".data

/-- A first API key. -/
def keyOne : Str := "key-one".data

/-- A second, different API key. -/
def keyTwo : Str := "key-two".data

/-- The empty cache state. -/
def emptyCache : CacheState := ⟨[], 0⟩

/-- A vector store sitting in the cache for the tiny document. -/
def vsTiny : VectorStore := ⟨[tinyDoc], keyOne⟩

/-- A cache state holding a built store for the tiny document after some
embedding calls have been made. -/
def cacheTiny : CacheState := ⟨[(tinyDoc, some vsTiny)], 7⟩

/-! # Theorems -/

/-! ## Helper lemmas about in-order containment -/

theorem containsInOrder_prepend (pre : Str) {s : Str} {ds : List Str}
    (h : ContainsInOrder s ds) : ContainsInOrder (pre ++ s) ds := by
  cases ds with
  | nil => trivial
  | cons d ds' =>
    obtain ⟨p, post, heq, hrest⟩ := h
    exact ⟨pre ++ p, post, by rw [heq]; simp [List.append_assoc], hrest⟩

theorem intercalate_cons_cons (sep a b : Str) (l : List Str) :
    List.intercalate sep (a :: b :: l) = a ++ (sep ++ List.intercalate sep (b :: l)) := by
  simp [List.intercalate, List.intersperse_cons_cons, List.flatten_cons, List.append_assoc]

theorem containsInOrder_intercalate (sep : Str) :
    ∀ docs : List Str, ContainsInOrder (List.intercalate sep docs) docs := by
  intro docs
  induction docs with
  | nil => trivial
  | cons d ds ih =>
    cases ds with
    | nil => exact ⟨[], [], by simp [List.intercalate], trivial⟩
    | cons d2 ds2 =>
      refine ⟨[], sep ++ List.intercalate sep (d2 :: ds2), ?_, ?_⟩
      · rw [intercalate_cons_cons]; simp
      · exact containsInOrder_prepend sep ih

/-! ## Claim theorems: prompt composition and the chat handler -/

/-- C6: the composed prompt carries the literal query as the human message,
its system message contains every retrieved chunk text in ranking order,
and it always begins with the fixed persona sentences followed by the
grounding rule, for empty and non-empty retrieval alike. -/
theorem C6_composed_prompt (docs : List Str) (q : Str) :
    (composePrompt docs q).human = q ∧
    ContainsInOrder (composePrompt docs q).system docs ∧
    ∃ rest, (composePrompt docs q).system = sysPersona ++ (groundingRule ++ rest) := by
  refine ⟨rfl, ?_, ?_⟩
  · exact containsInOrder_prepend systemInstruction (containsInOrder_intercalate _ docs)
  · exact ⟨(" \n\n").data ++ contextOf docs, by
      simp [composePrompt, systemInstruction, List.append_assoc]⟩

/-- C1 counterexample: with an empty conversation store, a query whose
Generator call raises leaves the store holding the just-appended user
turn, so the store is not left exactly as it was before the query. -/
theorem C1_counterexample :
    (chatStep [] ("hi".data) (Except.error ("quota".data))).1 =
      [⟨userRole, "hi".data⟩] ∧
    [(⟨userRole, "hi".data⟩ : Turn)] ≠ ([] : List Turn) := by
  exact ⟨rfl, by decide⟩

/-- C1 (amended): on a Generator failure the error is surfaced, no
assistant turn is appended, and the ConversationStore holds exactly the
prior turns plus the user turn that was appended before the Generator was
invoked. -/
theorem C1_generator_failure (messages : List Turn) (q : Str) (e : GenError) :
    chatStep messages q (Except.error e) = (messages ++ [⟨userRole, q⟩], some e) := rfl

/-- C8: on Generator success exactly the user turn and then the assistant
turn are appended, in that order, and no other entry changes. -/
theorem C8_success_appends (messages : List Turn) (q a : Str) :
    chatStep messages q (Except.ok a) =
      (messages ++ [⟨userRole, q⟩, ⟨assistantRole, a⟩], none) := by
  simp [chatStep]

/-- C9: the prompt handed to the Generator is computed from the store and
the query alone; two sessions with the same built index and query but
different conversation histories feed the Generator the same input. -/
theorem C9_prompt_ignores_history (retr : VectorStore → Str → List Str)
    (gen : Prompt → Except GenError Str) (vs : VectorStore) (q : Str)
    (messages1 messages2 : List Turn) :
    (queryStep retr gen ⟨vs, messages1⟩ q).1 =
      (queryStep retr gen ⟨vs, messages2⟩ q).1 := rfl

/-- C10: with no upload the loader falls back to biography.txt exactly when
it exists; a decode failure of the upload or a read failure of the local
file surfaces one error message and yields no content instead of
crashing. -/
theorem C10_document_loading (s : Str) (e : PyErr) (lr : Except PyErr Str) (le : Bool) :
    get_text_content none true (Except.ok s) = (some s, []) ∧
    get_text_content none false lr = (none, []) ∧
    get_text_content (some (Except.error e)) le lr = (none, [e]) ∧
    get_text_content none true (Except.error e) = (none, [e]) ∧
    get_text_content (some (Except.ok s)) le lr = (some s, []) :=
  ⟨rfl, rfl, rfl, rfl, rfl⟩

/-! ## Claim theorems: caching, empty documents and history reset -/

theorem cacheLookup_cons_self (r : Option VectorStore) (c : List (Str × Option VectorStore))
    (t : Str) : cacheLookup ((t, r) :: c) t = some r := by
  simp [cacheLookup]

/-- C2 counterexample: after building the index for the tiny document with
the first key, building again with a different key performs no new
embedding call and returns the store still configured with the first key,
so a changed embedder configuration does not trigger a fresh build. -/
theorem C2_counterexample :
    keyOne ≠ keyTwo ∧
    (build_vector_store tinyDoc keyOne emptyCache).2.embedCalls = 1 ∧
    (build_vector_store tinyDoc keyTwo
        (build_vector_store tinyDoc keyOne emptyCache).2).2.embedCalls = 1 ∧
    (build_vector_store tinyDoc keyTwo
        (build_vector_store tinyDoc keyOne emptyCache).2).1 =
      some ⟨chunkTexts tinyDoc, keyOne⟩ := by
  refine ⟨by decide, by decide, by decide, by decide⟩

/-- C2 (amended): the index build is memoized on the document content
alone.  A repeated build for the same content makes no further embedding
calls and returns the cached result whatever API key is supplied, while
content absent from the cache triggers a fresh build with one embedding
call per chunk. -/
theorem C2_memoized_on_content (t k k2 : Str) (st st1 : CacheState)
    (r : Option VectorStore) (h : build_vector_store t k st = (r, st1)) :
    build_vector_store t k2 st1 = (r, st1) ∧
    (cacheLookup st.cache t = none → t ≠ [] → chunkTexts t ≠ [] →
      build_vector_store t k st =
        (some ⟨chunkTexts t, k⟩,
          ⟨(t, some ⟨chunkTexts t, k⟩) :: st.cache,
            st.embedCalls + (chunkTexts t).length⟩)) := by
  constructor
  · cases hl : cacheLookup st.cache t with
    | some r0 =>
      rw [build_vector_store, hl] at h
      obtain ⟨h1, h2⟩ := Prod.mk.injEq .. ▸ h
      subst h1; subst h2
      rw [build_vector_store, hl]
    | none =>
      rw [build_vector_store, hl] at h
      obtain ⟨h1, h2⟩ := Prod.mk.injEq .. ▸ h
      subst h1; subst h2
      rw [build_vector_store]
      simp [cacheLookup_cons_self]
  · intro hl ht hc
    rw [build_vector_store, hl]
    simp [ht, hc]

/-- Witness for C2 at the tiny document and the two concrete keys. -/
theorem C2_memoized_witness :
    build_vector_store tinyDoc keyTwo (build_vector_store tinyDoc keyOne emptyCache).2 =
      ((build_vector_store tinyDoc keyOne emptyCache).1,
        (build_vector_store tinyDoc keyOne emptyCache).2) ∧
    build_vector_store tinyDoc keyOne emptyCache =
      (some ⟨chunkTexts tinyDoc, keyOne⟩,
        ⟨(tinyDoc, some ⟨chunkTexts tinyDoc, keyOne⟩) :: emptyCache.cache,
          emptyCache.embedCalls + (chunkTexts tinyDoc).length⟩) := by
  have h := C2_memoized_on_content tinyDoc keyOne keyTwo emptyCache
    (build_vector_store tinyDoc keyOne emptyCache).2
    (build_vector_store tinyDoc keyOne emptyCache).1 rfl
  exact ⟨h.1, h.2 (by decide) (by decide) (by decide)⟩

/-- C5: an empty document makes main stop at the info message without
building anything, leaving cache, embedding count and history untouched;
and the build itself returns no index for empty text, caching None and
making no embedding call. -/
theorem C5_empty_document (apiKey : Str) (uploaded : Option (Except PyErr Str))
    (le : Bool) (lr : Except PyErr Str) (retr : VectorStore → Str → List Str)
    (gen : Prompt → Except GenError Str) (cache : CacheState) (messages : List Turn)
    (chatInput : Option Str) (k : Str) (st : CacheState)
    (hk : apiKey ≠ []) (ht : (get_text_content uploaded le lr).1 = some [])
    (hc : cacheLookup st.cache [] = none) :
    main apiKey uploaded le lr retr gen cache messages chatInput =
      (cache, messages, MainOutcome.infoNoDocument) ∧
    build_vector_store [] k st = (none, ⟨([], none) :: st.cache, st.embedCalls⟩) := by
  constructor
  · rw [main, ht]
    simp [hk]
  · rw [build_vector_store, hc]
    simp

/-- Witness for C5 with an uploaded empty file and the empty cache. -/
theorem C5_witness :
    main keyOne (some (Except.ok [])) false (Except.ok []) (fun _ _ => [])
        (fun _ => Except.ok []) emptyCache [] none =
      (emptyCache, [], MainOutcome.infoNoDocument) ∧
    build_vector_store [] keyOne emptyCache =
      (none, ⟨([], none) :: emptyCache.cache, emptyCache.embedCalls⟩) :=
  C5_empty_document keyOne (some (Except.ok [])) false (Except.ok []) (fun _ _ => [])
    (fun _ => Except.ok []) emptyCache [] none keyOne emptyCache
    (by decide) rfl rfl

/-- C7: clearing the chat history empties it, and the following rerun of
main finds the vector store in the cache: the cache state, and with it the
embedding call count, is unchanged and the very same store is served. -/
theorem C7_reset_history (apiKey t : Str) (le : Bool) (lr : Except PyErr Str)
    (retr : VectorStore → Str → List Str) (gen : Prompt → Except GenError Str)
    (cache : CacheState) (vs : VectorStore) (messages : List Turn)
    (hk : apiKey ≠ []) (ht : t ≠ []) (hc : cacheLookup cache.cache t = some (some vs)) :
    getHistory (clearHistory messages) = [] ∧
    main apiKey (some (Except.ok t)) le lr retr gen cache (clearHistory messages) none =
      (cache, [], MainOutcome.ready vs none) := by
  refine ⟨rfl, ?_⟩
  rw [main]
  simp only [get_text_content]
  rw [build_vector_store, hc]
  simp [hk, ht, clearHistory]

/-- Witness for C7 at a populated cache holding the tiny store. -/
theorem C7_witness :
    getHistory (clearHistory [⟨userRole, tinyDoc⟩]) = [] ∧
    main keyOne (some (Except.ok tinyDoc)) false (Except.ok []) (fun _ _ => [])
        (fun _ => Except.ok []) cacheTiny (clearHistory [⟨userRole, tinyDoc⟩]) none =
      (cacheTiny, [], MainOutcome.ready vsTiny none) :=
  C7_reset_history keyOne tinyDoc false (Except.ok []) (fun _ _ => [])
    (fun _ => Except.ok []) cacheTiny vsTiny [⟨userRole, tinyDoc⟩]
    (by decide) (by decide) (by decide)

/-! ## Claim theorems: chunk overlap -/

/-- C3 counterexample: the two-paragraph document is split into its two
paragraphs, consecutive chunks of the output, and they do not overlap by
the configured 200 characters. -/
theorem C3_counterexample :
    chunkTexts paraText = [paraA, paraB] ∧
    ¬ overlapsBy paraA paraB chunk_overlap := by
  constructor
  · decide
  · decide

/-- C3 (amended): consecutive chunks are not guaranteed to overlap by the
configured amount; the overlap is an upper bound that can degenerate to
nothing.  When the splitter cuts at a paragraph boundary whose two sides
cannot be merged within the chunk size, the resulting consecutive chunks
share no overlap of any positive length. -/
theorem C3_paragraph_chunks_disjoint :
    chunkTexts paraText = [paraA, paraB] ∧
    ∀ n : Nat, 0 < n → ¬ overlapsBy paraA paraB n := by
  constructor
  · decide
  · intro n hn h
    obtain ⟨h1, h2, h3⟩ := h
    obtain ⟨m, rfl⟩ : ∃ m, n = m + 1 := ⟨n - 1, by omega⟩
    have hm : m + 1 ≤ 600 := by
      simpa [paraB, List.length_replicate] using h2
    rw [paraA, paraB, List.drop_replicate, List.take_replicate] at h3
    rw [List.length_replicate] at h3
    rw [show 600 - (600 - (m + 1)) = m + 1 by omega] at h3
    rw [show (m + 1) ⊓ 600 = m + 1 by omega] at h3
    rw [List.replicate_succ, List.replicate_succ] at h3
    exact absurd (List.head_eq_of_cons_eq h3) (by decide)

/-- Witness for C3 at the configured overlap itself. -/
theorem C3_witness : ¬ overlapsBy paraA paraB chunk_overlap :=
  C3_paragraph_chunks_disjoint.2 chunk_overlap (by decide)

/-! ## Helper lemmas about the splitter on short texts -/

theorem isPrefixOf_append : ∀ (sep l : Str), List.isPrefixOf sep l = true →
    ∃ u, sep ++ u = l := by
  intro sep
  induction sep with
  | nil => intro l _; exact ⟨l, rfl⟩
  | cons c cs ih =>
    intro l h
    cases l with
    | nil => simp [List.isPrefixOf] at h
    | cons b bs =>
      rw [List.isPrefixOf, Bool.and_eq_true, beq_iff_eq] at h
      obtain ⟨u, hu⟩ := ih bs h.2
      have hc : c = b := h.1
      subst hc
      exact ⟨u, by rw [List.cons_append, hu]⟩

theorem splitFirst_eq {sep : Str} : ∀ {t pre post : Str},
    splitFirst sep t = some (pre, post) → t = pre ++ (sep ++ post) := by
  intro t
  induction t with
  | nil => intro pre post h; simp [splitFirst] at h
  | cons c rest ih =>
    intro pre post h
    rw [splitFirst] at h
    by_cases hp : List.isPrefixOf sep (c :: rest)
    · rw [if_pos hp] at h
      injection h with h'
      injection h' with h1 h2
      subst h1; subst h2
      obtain ⟨u, hu⟩ := isPrefixOf_append sep (c :: rest) hp
      rw [List.nil_append, ← hu, List.drop_left]
    · rw [if_neg hp] at h
      cases hsf : splitFirst sep rest with
      | none => rw [hsf] at h; exact absurd h (by simp)
      | some pr =>
        obtain ⟨pre1, post1⟩ := pr
        rw [hsf] at h
        injection h with h'
        injection h' with h1 h2
        subst h1; subst h2
        rw [List.cons_append, ← ih hsf]

theorem splitPiecesFuel_ne_nil (sep : Str) (fuel : Nat) (t : Str) :
    splitPiecesFuel sep fuel t ≠ [] := by
  cases fuel with
  | zero => simp [splitPiecesFuel]
  | succ n =>
    rw [splitPiecesFuel]
    cases splitFirst sep t with
    | none => simp
    | some pr => simp

theorem intercalate_singleton (sep a : Str) : List.intercalate sep [a] = a := by
  simp [List.intercalate]

theorem intercalate_splitPiecesFuel (sep : Str) : ∀ (fuel : Nat) (t : Str),
    List.intercalate sep (splitPiecesFuel sep fuel t) = t := by
  intro fuel
  induction fuel with
  | zero => intro t; rw [splitPiecesFuel, intercalate_singleton]
  | succ n ih =>
    intro t
    rw [splitPiecesFuel]
    cases hsf : splitFirst sep t with
    | none => exact intercalate_singleton sep t
    | some pr =>
      obtain ⟨pre, post⟩ := pr
      show List.intercalate sep (pre :: splitPiecesFuel sep n post) = t
      obtain ⟨q, qs, hq⟩ : ∃ q qs, splitPiecesFuel sep n post = q :: qs := by
        cases hsp : splitPiecesFuel sep n post with
        | nil => exact absurd hsp (splitPiecesFuel_ne_nil sep n post)
        | cons q qs => exact ⟨q, qs, rfl⟩
      rw [hq, intercalate_cons_cons, ← hq, ih]
      exact (splitFirst_eq hsf).symm

theorem intercalate_splitPieces (sep t : Str) :
    List.intercalate sep (splitPieces sep t) = t := by
  rw [splitPieces]
  by_cases h : sep = []
  · rw [if_pos h, intercalate_singleton]
  · rw [if_neg h, intercalate_splitPiecesFuel]

theorem splitPieces_ne_nil (sep t : Str) : splitPieces sep t ≠ [] := by
  rw [splitPieces]
  by_cases h : sep = []
  · simp [h]
  · rw [if_neg h]; exact splitPiecesFuel_ne_nil sep t.length t

theorem flatten_filter_nonempty : ∀ l : List Str,
    (l.filter (fun s => !s.isEmpty)).flatten = l.flatten := by
  intro l
  induction l with
  | nil => rfl
  | cons s ss ih =>
    by_cases hs : s.isEmpty
    · have h0 : s = [] := List.isEmpty_iff.mp hs
      simp [List.filter_cons, hs, h0, ih]
    · simp [List.filter_cons, hs, ih]

theorem flatten_map_singleton : ∀ t : Str, (t.map (fun c => [c])).flatten = t := by
  intro t
  induction t with
  | nil => rfl
  | cons c cs ih => simp [ih]

theorem flatten_keep (sep : Str) : ∀ (ps : List Str) (p : Str),
    (p :: ps.map (fun q => sep ++ q)).flatten = List.intercalate sep (p :: ps) := by
  intro ps
  induction ps with
  | nil => intro p; simp [intercalate_singleton]
  | cons q qs ih =>
    intro p
    rw [intercalate_cons_cons, ← ih q]
    simp [List.append_assoc]

theorem splitKeep_flatten (sep t : Str) : (splitKeep sep t).flatten = t := by
  rw [splitKeep, flatten_filter_nonempty]
  by_cases hs : sep = []
  · rw [if_pos hs]; exact flatten_map_singleton t
  · rw [if_neg hs]
    cases hsp : splitPieces sep t with
    | nil => exact absurd hsp (splitPieces_ne_nil sep t)
    | cons p ps => rw [flatten_keep, ← hsp, intercalate_splitPieces]

theorem length_le_flatten : ∀ {l : List Str} {s : Str}, s ∈ l →
    s.length ≤ l.flatten.length := by
  intro l
  induction l with
  | nil => intro s h; simp at h
  | cons a as ih =>
    intro s h
    rw [List.flatten_cons, List.length_append]
    rcases List.mem_cons.mp h with h | h
    · subst h; omega
    · have := ih h; omega

theorem mergeFlush_of_fits (cs ov : Nat) (sep d : Str) (cur : List Str) (total : Int)
    (docs : List Str)
    (h : ¬ (total + (d.length : Int) +
        (if 0 < cur.length then (sep.length : Int) else 0) > (cs : Int))) :
    mergeFlush cs ov sep d cur total docs = (docs, cur, total) := by
  rw [mergeFlush, if_neg h]

theorem intercalate_nil_sep : ∀ l : List Str, List.intercalate ([] : Str) l = l.flatten := by
  intro l
  induction l with
  | nil => rfl
  | cons a as ih =>
    cases as with
    | nil => simp [intercalate_singleton]
    | cons b bs => rw [intercalate_cons_cons, ih]; simp

theorem joinDocs_nil_sep (l : List Str) :
    joinDocs [] l = if strip l.flatten = [] then none else some (strip l.flatten) := by
  simp [joinDocs, intercalate_nil_sep]

theorem mergeLoop_noflush (cs ov : Nat) : ∀ (splits cur docs : List Str) (total : Int),
    total = ((cur.map List.length).sum : Int) →
    (cur.map List.length).sum + (splits.map List.length).sum ≤ cs →
    mergeLoop cs ov [] splits cur total docs =
      docs ++ (joinDocs [] (cur ++ splits)).toList := by
  intro splits
  induction splits with
  | nil =>
    intro cur docs total h1 h2
    rw [mergeLoop]
    simp
  | cons d ds ih =>
    intro cur docs total h1 h2
    rw [mergeLoop]
    have hsum : (cur.map List.length).sum + d.length + (ds.map List.length).sum ≤ cs := by
      simp only [List.map_cons, List.sum_cons] at h2
      omega
    have hcond : ¬ (total + (d.length : Int) +
        (if 0 < cur.length then ((([] : Str)).length : Int) else 0) > (cs : Int)) := by
      subst h1
      simp only [List.length_nil, Nat.cast_zero, ite_self]
      omega
    rw [mergeFlush_of_fits cs ov [] d cur total docs hcond]
    simp only [List.length_nil, Nat.cast_zero, ite_self, add_zero]
    rw [ih (cur ++ [d]) docs (total + (d.length : Int))
      (by subst h1
          simp only [List.map_append, List.sum_append, List.map_cons, List.sum_cons,
            List.map_nil, List.sum_nil]
          push_cast
          ring)
      (by simp only [List.map_append, List.sum_append, List.map_cons, List.sum_cons,
            List.map_nil, List.sum_nil]
          omega)]
    simp

theorem mergeSplits_nil (cs ov : Nat) : mergeSplits cs ov [] [] = [] := rfl

theorem processSplits_allgood (cs ov : Nat) (r : Str → List Str) (b : Bool) :
    ∀ (splits good final : List Str), (∀ s ∈ splits, s.length < cs) →
      processSplits cs ov r b splits good final =
        final ++ mergeSplits cs ov [] (good ++ splits) := by
  intro splits
  induction splits with
  | nil =>
    intro good final _
    rw [processSplits, List.append_nil]
    by_cases hg : 0 < good.length
    · rw [if_pos hg]
    · rw [if_neg hg]
      have h0 : good = [] := by
        cases good with
        | nil => rfl
        | cons x xs => simp at hg
      rw [h0, mergeSplits_nil]
  | cons s ss ih =>
    intro good final h
    rw [processSplits]
    have hs : s.length < cs := h s (by simp)
    rw [if_pos hs]
    rw [ih (good ++ [s]) final (fun x hx => h x (by simp [hx]))]
    simp

theorem processSplits_small (r : Str → List Str) (b : Bool) (sep t : Str)
    (ht : t.length < chunk_size) :
    processSplits chunk_size chunk_overlap r b (splitKeep sep t) [] [] =
      if strip t = [] then [] else [strip t] := by
  have hmem : ∀ s ∈ splitKeep sep t, s.length < chunk_size := by
    intro s hs
    have h1 := length_le_flatten hs
    rw [splitKeep_flatten] at h1
    omega
  have h2 : ((splitKeep sep t).map List.length).sum ≤ chunk_size := by
    rw [← List.length_flatten, splitKeep_flatten]
    omega
  rw [processSplits_allgood chunk_size chunk_overlap r b (splitKeep sep t) [] [] hmem]
  simp only [List.nil_append]
  rw [mergeSplits]
  rw [mergeLoop_noflush chunk_size chunk_overlap (splitKeep sep t) [] [] 0 (by simp)
    (by simpa using h2)]
  rw [List.nil_append, List.nil_append, joinDocs_nil_sep, splitKeep_flatten]
  by_cases h : strip t = [] <;> simp [h]

theorem splitChars_small (t : Str) (ht : t.length < chunk_size) :
    splitChars t = if strip t = [] then [] else [strip t] :=
  processSplits_small _ _ _ t ht

theorem splitBySpace_small (t : Str) (ht : t.length < chunk_size) :
    splitBySpace t = if strip t = [] then [] else [strip t] := by
  rw [splitBySpace]
  by_cases h : containsSub sepSpace t
  · rw [if_pos h]; exact processSplits_small _ _ _ t ht
  · rw [if_neg h]; exact splitChars_small t ht

theorem splitByNewline_small (t : Str) (ht : t.length < chunk_size) :
    splitByNewline t = if strip t = [] then [] else [strip t] := by
  rw [splitByNewline]
  by_cases h : containsSub sepNewline t
  · rw [if_pos h]; exact processSplits_small _ _ _ t ht
  · rw [if_neg h]; exact splitBySpace_small t ht

theorem chunkTexts_small (t : Str) (ht : t.length < chunk_size) :
    chunkTexts t = if strip t = [] then [] else [strip t] := by
  rw [chunkTexts, splitText]
  by_cases h : containsSub sepParagraph t
  · rw [if_pos h]; exact processSplits_small _ _ _ t ht
  · rw [if_neg h]; exact splitByNewline_small t ht

/-! ## Claim theorems: short texts -/

/-- C4 counterexample: a one-character whitespace document is non-empty and
shorter than the chunk size, yet the Chunker yields no chunk at all rather
than one chunk equal to the whole text. -/
theorem C4_counterexample :
    (" ".data : Str) ≠ [] ∧ (" ".data : Str).length < chunk_size ∧
    chunkTexts (" ".data) = [] ∧ chunkTexts (" ".data) ≠ [" ".data] := by
  refine ⟨by decide, by decide, by decide, by decide⟩

/-- C4 (amended): a text shorter than the chunk size yields exactly one
chunk equal to the whole text stripped of leading and trailing whitespace,
when that stripped text is non-empty; an entirely-whitespace text yields
no chunks. -/
theorem C4_short_text (t : Str) (ht : t.length < chunk_size) :
    chunkTexts t = if strip t = [] then [] else [strip t] :=
  chunkTexts_small t ht

/-- Witness for C4 at the tiny document, which has no surrounding
whitespace and so comes back as the single chunk. -/
theorem C4_witness :
    chunkTexts tinyDoc = if strip tinyDoc = [] then [] else [strip tinyDoc] :=
  C4_short_text tinyDoc (by decide)

end RagApp
